import Mathlib

/-!
Verification of the "Fridge to Fork" kitchen-assistant front end.

The definitions below are a shallow embedding of the state-manipulating
functions of the repository: the ingredient merge performed after image
analysis, the fridge-inventory and shopping-list handlers, the chat
message operations, the recipe filter, the live-audio scheduling logic,
and the base64 framing used for live-session audio.  Machine floats
(audio clock times and buffer durations) are modelled as rationals, and
the JavaScript array state held in React hooks is modelled as Lean lists.
-/

namespace FridgeToFork

/-- Translation of the `Ingredient` record of `types.ts`. -/
structure Ingredient where
  name : String
  quantity : String
  freshness : String
deriving Repr, DecidableEq, Inhabited

/-- Translation of the `ShoppingListItem` record of `types.ts`
(the optional `quantity` field becomes `Option String`). -/
structure ShoppingListItem where
  id : String
  name : String
  quantity : Option String
  checked : Bool
deriving Repr, DecidableEq, Inhabited

/-- The `sender` field of a chat message. -/
inductive Sender where
  | user
  | gemini
deriving Repr, DecidableEq

/-- Translation of the `ChatMessage` record of `types.ts`.  The wall-clock
`timestamp` and the optional `sources`/`functionCalls` payloads are not
modelled: no claim mentions them and no handler branches on them.  The
optional `isStreaming` flag is modelled as a `Bool` (absent = `false`,
matching how the code tests it for truthiness). -/
structure ChatMessage where
  id : String
  sender : Sender
  text : String
  isStreaming : Bool
deriving Repr, DecidableEq

/-- Translation of the `Recipe` record of `types.ts` (fields the filter
logic reads). -/
structure Recipe where
  name : String
  summary : String
  healthInsight : String
  ingredients : List String
deriving Repr, DecidableEq

/-! ### Executable models of the JavaScript string builtins
The handlers call `toLowerCase`, `trim` and `includes` on plain ASCII
strings.  The Lean core versions of these functions do not reduce inside
the kernel, so the models below recompute them on the character list of
the string; on the ASCII data appearing in this code base they agree with
the JavaScript builtins. -/

/-- Model of `String.prototype.toLowerCase` (character-wise lowering). -/
def jsToLower (s : String) : String := String.mk (s.data.map Char.toLower)

/-- Model of `String.prototype.trim` (strip leading and trailing
whitespace). -/
def jsTrim (s : String) : String :=
  String.mk (((s.data.dropWhile Char.isWhitespace).reverse.dropWhile
    Char.isWhitespace).reverse)

/-- Whether `needle` occurs as a contiguous run inside the character
list. -/
def containsSub (needle : List Char) : List Char → Bool
  | [] => needle.isEmpty
  | c :: rest => needle.isPrefixOf (c :: rest) || containsSub needle rest

/-- Model of `String.prototype.includes`. -/
def jsIncludes (s t : String) : Bool := containsSub t.data s.data

/-! ### Ingredient merge after image analysis
Translated from `handleIngredientsAnalyzed` / the inventory update inside
`initiateFullScanProcess`: for each analyzed ingredient the code runs
`findIndex` with a case-insensitive name comparison over the array built
so far, mutates the `quantity` and `freshness` of the found element, and
otherwise pushes the new ingredient at the end. -/

/-- The case-insensitive name comparison
`ing.name.toLowerCase() === newIng.name.toLowerCase()`. -/
def ingMatches (newIng ing : Ingredient) : Bool :=
  jsToLower ing.name == jsToLower newIng.name

/-- Overwrite the `quantity` and `freshness` of the first element matching
`newIng` (the effect of the index assignment at the `findIndex` result). -/
def updateFirstMatch (newIng : Ingredient) : List Ingredient → List Ingredient
  | [] => []
  | ing :: rest =>
    if ingMatches newIng ing then
      { ing with quantity := newIng.quantity, freshness := newIng.freshness } :: rest
    else
      ing :: updateFirstMatch newIng rest

/-- One iteration of the `ingredients.forEach` body: update the first
match if `findIndex` succeeds, otherwise push at the end. -/
def mergeOne (inv : List Ingredient) (newIng : Ingredient) : List Ingredient :=
  if inv.any (ingMatches newIng) then updateFirstMatch newIng inv
  else inv ++ [newIng]

/-- The whole merge: fold the `forEach` body over the analyzed
ingredients, starting from the previous inventory (`[...prev]`). -/
def handleIngredientsAnalyzed (prev ingredients : List Ingredient) : List Ingredient :=
  ingredients.foldl mergeOne prev

theorem updateFirstMatch_map_name (n : Ingredient) (inv : List Ingredient) :
    (updateFirstMatch n inv).map Ingredient.name = inv.map Ingredient.name := by
  induction inv with
  | nil => rfl
  | cons a tl ih =>
    by_cases h : ingMatches n a = true
    · simp [updateFirstMatch, h]
    · simp [updateFirstMatch, h, ih]

theorem updateFirstMatch_length (n : Ingredient) (inv : List Ingredient) :
    (updateFirstMatch n inv).length = inv.length := by
  have := congrArg List.length (updateFirstMatch_map_name n inv)
  simpa using this

theorem updateFirstMatch_eq_set (n : Ingredient) (inv : List Ingredient)
    (h : inv.any (ingMatches n) = true) :
    inv.findIdx (ingMatches n) < inv.length ∧
    updateFirstMatch n inv =
      inv.set (inv.findIdx (ingMatches n))
        { inv.getD (inv.findIdx (ingMatches n)) default with
            quantity := n.quantity, freshness := n.freshness } := by
  induction inv with
  | nil => simp at h
  | cons a tl ih =>
    by_cases ha : ingMatches n a = true
    · constructor
      · simp [List.findIdx_cons, ha]
      · simp [updateFirstMatch, ha, List.findIdx_cons]
    · have htl : tl.any (ingMatches n) = true := by
        simp [List.any_cons, ha] at h
        simpa using h
      obtain ⟨hlt, heq⟩ := ih htl
      have hfi : (a :: tl).findIdx (ingMatches n) = tl.findIdx (ingMatches n) + 1 := by
        simp [List.findIdx_cons, ha]
      refine ⟨by simpa [hfi] using Nat.succ_lt_succ hlt, ?_⟩
      simp [updateFirstMatch, ha, hfi, heq]

theorem mergeOne_length_le (inv : List Ingredient) (n : Ingredient) :
    inv.length ≤ (mergeOne inv n).length := by
  by_cases h : inv.any (ingMatches n) = true
  · simp [mergeOne, h, updateFirstMatch_length]
  · simp [mergeOne, h]

theorem mergeOne_name_preserved (inv : List Ingredient) (n : Ingredient)
    (i : Nat) (hi : i < inv.length) :
    ((mergeOne inv n)[i]?).map Ingredient.name = (inv[i]?).map Ingredient.name := by
  by_cases h : inv.any (ingMatches n) = true
  · have hmap := updateFirstMatch_map_name n inv
    have : ((updateFirstMatch n inv).map Ingredient.name)[i]? =
        (inv.map Ingredient.name)[i]? := by rw [hmap]
    simpa [mergeOne, h, List.getElem?_map] using this
  · simp [mergeOne, h, List.getElem?_append_left hi]

theorem handleIngredientsAnalyzed_length (prev ings : List Ingredient) :
    prev.length ≤ (handleIngredientsAnalyzed prev ings).length := by
  induction ings generalizing prev with
  | nil => simp [handleIngredientsAnalyzed]
  | cons n rest ih =>
    have h1 := mergeOne_length_le prev n
    have h2 := ih (mergeOne prev n)
    simpa [handleIngredientsAnalyzed] using le_trans h1 h2

theorem handleIngredientsAnalyzed_name_preserved (prev ings : List Ingredient)
    (i : Nat) (hi : i < prev.length) :
    ((handleIngredientsAnalyzed prev ings)[i]?).map Ingredient.name =
      (prev[i]?).map Ingredient.name := by
  induction ings generalizing prev with
  | nil => simp [handleIngredientsAnalyzed]
  | cons n rest ih =>
    have hi' : i < (mergeOne prev n).length := lt_of_lt_of_le hi (mergeOne_length_le prev n)
    have h1 := ih (mergeOne prev n) hi'
    have h2 := mergeOne_name_preserved prev n i hi
    calc ((handleIngredientsAnalyzed prev (n :: rest))[i]?).map Ingredient.name
        = ((handleIngredientsAnalyzed (mergeOne prev n) rest)[i]?).map Ingredient.name := rfl
      _ = ((mergeOne prev n)[i]?).map Ingredient.name := h1
      _ = (prev[i]?).map Ingredient.name := h2

/-- C1 counterexample: the claim matches analyzed ingredients only against
items of the pre-merge inventory, so for an empty inventory and the two
analyzed ingredients `Apple` and `apple` it predicts two appended items.
The code matches against the array as it grows, so the second analyzed
ingredient overwrites the first and a single item results. -/
theorem C1_counterexample :
    handleIngredientsAnalyzed []
        [⟨"Apple", "1", "fresh"⟩, ⟨"apple", "2", "good"⟩] =
      [⟨"Apple", "2", "good"⟩] ∧
    (handleIngredientsAnalyzed []
        [⟨"Apple", "1", "fresh"⟩, ⟨"apple", "2", "good"⟩]).length ≠ 2 := by
  constructor
  · decide
  · decide

/-- C1 (amended): the analyzed ingredients are processed sequentially
against the inventory as already merged (so an ingredient can also match
one appended earlier in the same merge).  A step with no case-insensitive
name match appends the ingredient at the end; a step with a match
overwrites the quantity and freshness of the first matching item in
place, keeping its name and position.  No existing item is removed and
the names and relative order of the original items are preserved. -/
theorem C1_merge_amended :
    (∀ (inv : List Ingredient) (n : Ingredient),
        inv.any (ingMatches n) = false →
        mergeOne inv n = inv ++ [n]) ∧
    (∀ (inv : List Ingredient) (n : Ingredient),
        inv.any (ingMatches n) = true →
        inv.findIdx (ingMatches n) < inv.length ∧
        mergeOne inv n =
          inv.set (inv.findIdx (ingMatches n))
            { inv.getD (inv.findIdx (ingMatches n)) default with
                quantity := n.quantity, freshness := n.freshness }) ∧
    (∀ (prev ings : List Ingredient),
        prev.length ≤ (handleIngredientsAnalyzed prev ings).length ∧
        ∀ i : Nat, i < prev.length →
          ((handleIngredientsAnalyzed prev ings)[i]?).map Ingredient.name =
            (prev[i]?).map Ingredient.name) := by
  refine ⟨?_, ?_, ?_⟩
  · intro inv n h
    simp [mergeOne, h]
  · intro inv n h
    have := updateFirstMatch_eq_set n inv h
    exact ⟨this.1, by simpa [mergeOne, h] using this.2⟩
  · intro prev ings
    exact ⟨handleIngredientsAnalyzed_length prev ings,
      fun i hi => handleIngredientsAnalyzed_name_preserved prev ings i hi⟩

/-- Witness for C1: the amended merge theorem applied at concrete inputs,
discharging each hypothesis. -/
theorem C1_merge_amended_witness :
    (([] : List Ingredient).any (ingMatches ⟨"apple", "1", "fresh"⟩) = false ∧
      mergeOne [] ⟨"apple", "1", "fresh"⟩ = [⟨"apple", "1", "fresh"⟩]) ∧
    (([⟨"Apple", "1", "fresh"⟩] : List Ingredient).any
        (ingMatches ⟨"apple", "2", "good"⟩) = true ∧
      mergeOne [⟨"Apple", "1", "fresh"⟩] ⟨"apple", "2", "good"⟩ =
        [(⟨"Apple", "1", "fresh"⟩ : Ingredient)].set
          ([(⟨"Apple", "1", "fresh"⟩ : Ingredient)].findIdx
            (ingMatches ⟨"apple", "2", "good"⟩))
          { [(⟨"Apple", "1", "fresh"⟩ : Ingredient)].getD
              ([(⟨"Apple", "1", "fresh"⟩ : Ingredient)].findIdx
                (ingMatches ⟨"apple", "2", "good"⟩)) default with
              quantity := "2", freshness := "good" }) ∧
    (([⟨"milk", "1", "good"⟩] : List Ingredient).length ≤
      (handleIngredientsAnalyzed [⟨"milk", "1", "good"⟩]
        [⟨"apple", "1", "fresh"⟩]).length) ∧
    ((handleIngredientsAnalyzed [⟨"milk", "1", "good"⟩]
        [⟨"apple", "1", "fresh"⟩])[0]?).map Ingredient.name =
      (([⟨"milk", "1", "good"⟩] : List Ingredient)[0]?).map Ingredient.name := by
  refine ⟨⟨by decide, C1_merge_amended.1 _ _ (by decide)⟩,
    ⟨by decide, (C1_merge_amended.2.1 _ _ (by decide)).2⟩,
    (C1_merge_amended.2.2 [⟨"milk", "1", "good"⟩] [⟨"apple", "1", "fresh"⟩]).1,
    (C1_merge_amended.2.2 [⟨"milk", "1", "good"⟩] [⟨"apple", "1", "fresh"⟩]).2 0 (by decide)⟩

/-! ### Fridge-inventory form handlers (`FridgeInventory.tsx`)
The component keeps the form fields and the edit index in local state;
`handleAddOrUpdateIngredient` validates them, then either replaces the
item at the edit index or appends a new item.  The second component of
the result models the user-facing validation message (the `alert`). -/

/-- The local state read and written by `handleAddOrUpdateIngredient`. -/
structure IngredientFormState where
  inventory : List Ingredient
  formName : String
  formQuantity : String
  formFreshness : String
  editIngredientIndex : Option Nat
deriving Repr, DecidableEq

/-- Translation of `handleAddOrUpdateIngredient`: on blank name or
quantity it alerts and returns; otherwise it builds the trimmed
ingredient, replaces the item at `editIngredientIndex` (or appends when
not editing) and resets the form fields. -/
def handleAddOrUpdateIngredient (st : IngredientFormState) :
    IngredientFormState × Option String :=
  if jsTrim st.formName = "" ∨ jsTrim st.formQuantity = "" then
    (st, some "Ingredient name and quantity cannot be empty.")
  else
    let newIngredient : Ingredient :=
      ⟨jsTrim st.formName, jsTrim st.formQuantity, st.formFreshness⟩
    let updatedInventory :=
      match st.editIngredientIndex with
      | some k => st.inventory.mapIdx fun i item =>
          if i = k then newIngredient else item
      | none => st.inventory ++ [newIngredient]
    ({ inventory := updatedInventory, formName := "", formQuantity := "",
       formFreshness := "fresh", editIngredientIndex := none }, none)

/-- Translation of `handleRemoveIngredient`:
`inventory.filter((_, index) => index !== indexToRemove)`. -/
def handleRemoveIngredient (idxToRemove : Nat) (inv : List Ingredient) :
    List Ingredient :=
  ((inv.enum.filter fun p => p.1 ≠ idxToRemove).map Prod.snd)

/-! ### Shopping-list handlers (`FridgeInventory.tsx`)
Each handler receives the current list and returns the list passed to
`onUpdateShoppingList`; fresh `uuidv4()` values are passed in as `newId`.
The `Option String` component of `handleAddShoppingItem` models any
user-facing validation message (the source shows none). -/

/-- Translation of `handleAddShoppingItem`: blank names are rejected
silently, otherwise a fresh unchecked item is appended. -/
def handleAddShoppingItem (newId : String) (newShoppingItemName : String)
    (shoppingList : List ShoppingListItem) :
    List ShoppingListItem × Option String :=
  if jsTrim newShoppingItemName = "" then (shoppingList, none)
  else (shoppingList ++ [⟨newId, jsTrim newShoppingItemName, none, false⟩], none)

/-- Translation of `handleUpdateShoppingItem`: rename the items with the
given id. -/
def handleUpdateShoppingItem (id newName : String)
    (shoppingList : List ShoppingListItem) : List ShoppingListItem :=
  shoppingList.map fun item =>
    if item.id = id then { item with name := newName } else item

/-- Translation of `handleToggleShoppingItem`: negate the `checked` flag
of the items with the given id. -/
def handleToggleShoppingItem (id : String)
    (shoppingList : List ShoppingListItem) : List ShoppingListItem :=
  shoppingList.map fun item =>
    if item.id = id then { item with checked := !item.checked } else item

/-- Translation of `handleRemoveShoppingItem`: drop the items with the
given id. -/
def handleRemoveShoppingItem (id : String)
    (shoppingList : List ShoppingListItem) : List ShoppingListItem :=
  shoppingList.filter fun item => item.id ≠ id

/-- Translation of `clearCompletedShoppingItems`: keep only unchecked
items. -/
def clearCompletedShoppingItems (shoppingList : List ShoppingListItem) :
    List ShoppingListItem :=
  shoppingList.filter fun item => !item.checked

/-! ### Chat message operations (`ChatInterface`)
`addMessage` appends a message with a fresh id; the streaming update maps
over the list replacing the text of the message currently flagged as
streaming. -/

/-- Translation of `addMessage` (fresh `uuidv4()` passed in as `newId`;
the wall-clock timestamp is not modelled). -/
def addMessage (newId : String) (msgs : List ChatMessage) (sender : Sender)
    (text : String) (isStreaming : Bool) : List ChatMessage :=
  msgs ++ [⟨newId, sender, text, isStreaming⟩]

/-- Translation of the `setMessages((prev) => prev.map(...))` updates in
`handleSendMessage` that write the accumulated streamed text into the
message flagged `isStreaming` (with the flag kept or cleared). -/
def streamingUpdate (fullResponseText : String) (stillStreaming : Bool)
    (msgs : List ChatMessage) : List ChatMessage :=
  msgs.map fun msg =>
    if msg.isStreaming then
      { msg with text := fullResponseText, isStreaming := stillStreaming }
    else msg

/-- The chat state touched by the synchronous part of
`handleSendMessage`. -/
structure ChatState where
  messages : List ChatMessage
  currentInput : String
  isThinking : Bool
  error : Option String
deriving Repr, DecidableEq

/-- Translation of the synchronous prefix of `handleSendMessage`: the
blank guard `if (!messageText.trim()) return;` followed by clearing the
input, appending the user message, setting the thinking flag and
clearing the chat error.  (The remainder of the handler awaits the API
and is modelled separately by the effect programs below.) -/
def handleSendMessage (newId : String) (messageText : String)
    (st : ChatState) : ChatState :=
  if jsTrim messageText = "" then st
  else
    { st with
      currentInput := ""
      messages := st.messages ++ [⟨newId, Sender.user, messageText, false⟩]
      isThinking := true
      error := none }

/-! ### Remaining entity-array operations
The inventory is also rewritten by the milk-expiry refresh in the App
`useEffect`, and the chat message list by the live-session transcription
and turn-complete updates in `handleLiveSessionMessage`. -/

/-- Translation of `INVENTORY_MILK_EXPIRY_THRESHOLD_DAYS` from
`constants.ts`. -/
def INVENTORY_MILK_EXPIRY_THRESHOLD_DAYS : Nat := 1

/-- Translation of `checkExpiry` in the App `useEffect`: map over the
inventory, switching a `good` milk item to `expiring` when the hardcoded
one day until expiry is within the threshold, and leaving every other
item as is. -/
def checkExpiry (inv : List Ingredient) : List Ingredient :=
  inv.map fun item =>
    if jsIncludes (jsToLower item.name) "milk" && item.freshness == "good" then
      if 1 ≤ INVENTORY_MILK_EXPIRY_THRESHOLD_DAYS then
        { item with freshness := "expiring" }
      else item
    else item

/-- Translation of the `setMessages` update for a model output
transcription in `handleLiveSessionMessage`: when the last message is a
streaming gemini message the text chunk is appended to that message in
place, otherwise a fresh streaming message is appended to the list. -/
def outputTranscriptionUpdate (newId text : String) (msgs : List ChatMessage) :
    List ChatMessage :=
  match msgs.getLast? with
  | some last =>
    if last.sender == Sender.gemini && last.isStreaming then
      msgs.map fun msg =>
        if msg.id = last.id then { msg with text := last.text ++ text } else msg
    else msgs ++ [⟨newId, Sender.gemini, text, true⟩]
  | none => msgs ++ [⟨newId, Sender.gemini, text, true⟩]

/-- Translation of the `turnComplete` update in
`handleLiveSessionMessage`: clear the streaming flag of every streaming
message in place. -/
def turnCompleteUpdate (msgs : List ChatMessage) : List ChatMessage :=
  msgs.map fun msg =>
    if msg.isStreaming then { msg with isStreaming := false } else msg

/-- C3 counterexample: `handleRemoveShoppingItem` removes an element, so
not every operation on the entity arrays is an append or an in-place
replacement. -/
theorem C3_counterexample :
    handleRemoveShoppingItem "a" [⟨"a", "milk", none, false⟩] = [] ∧
    (handleRemoveShoppingItem "a" [⟨"a", "milk", none, false⟩]).length <
      ([⟨"a", "milk", none, false⟩] : List ShoppingListItem).length := by
  constructor
  · decide
  · decide

/-- C3 (amended): every operation the UI performs on the entity arrays —
the chat append `addMessage`, the in-place chat updates (streaming text,
output transcription, turn-complete), the shopping-list add, rename and
toggle, the ingredient form add/update, the image-analysis merge and the
milk-expiry refresh — yields the previous list with elements appended at
the end and/or existing elements replaced in place (length and positions
of the existing elements preserved), except the explicit removal
operations `handleRemoveIngredient`, `handleRemoveShoppingItem` and
`clearCompletedShoppingItems`, each of which yields a sublist of the
previous list. -/
theorem C3_array_operations_amended :
    (∀ (newId : String) (msgs : List ChatMessage) (sender : Sender)
        (text : String) (streaming : Bool),
        addMessage newId msgs sender text streaming =
          msgs ++ [⟨newId, sender, text, streaming⟩]) ∧
    (∀ (text : String) (still : Bool) (msgs : List ChatMessage),
        (streamingUpdate text still msgs).length = msgs.length ∧
        ∀ (i : Nat) (m : ChatMessage), msgs[i]? = some m →
          (streamingUpdate text still msgs)[i]? = some
            (if m.isStreaming then { m with text := text, isStreaming := still }
             else m)) ∧
    (∀ (newId text : String) (msgs : List ChatMessage),
        (∃ x, outputTranscriptionUpdate newId text msgs = msgs ++ [x]) ∨
        ((outputTranscriptionUpdate newId text msgs).length = msgs.length ∧
          ∀ (i : Nat) (m : ChatMessage), msgs[i]? = some m →
            ∃ m', (outputTranscriptionUpdate newId text msgs)[i]? = some m' ∧
              m'.id = m.id ∧ m'.sender = m.sender ∧
              m'.isStreaming = m.isStreaming)) ∧
    (∀ msgs : List ChatMessage,
        (turnCompleteUpdate msgs).length = msgs.length ∧
        ∀ (i : Nat) (m : ChatMessage), msgs[i]? = some m →
          (turnCompleteUpdate msgs)[i]? = some
            (if m.isStreaming then { m with isStreaming := false } else m)) ∧
    (∀ (newId nm : String) (l : List ShoppingListItem),
        (handleAddShoppingItem newId nm l).1 = l ∨
        ∃ x, (handleAddShoppingItem newId nm l).1 = l ++ [x]) ∧
    (∀ (id nm : String) (l : List ShoppingListItem),
        (handleUpdateShoppingItem id nm l).length = l.length ∧
        ∀ (i : Nat) (item : ShoppingListItem), l[i]? = some item →
          (handleUpdateShoppingItem id nm l)[i]? = some
            (if item.id = id then { item with name := nm } else item)) ∧
    (∀ (id : String) (l : List ShoppingListItem),
        (handleToggleShoppingItem id l).length = l.length ∧
        ∀ (i : Nat) (item : ShoppingListItem), l[i]? = some item →
          (handleToggleShoppingItem id l)[i]? = some
            (if item.id = id then { item with checked := !item.checked }
             else item)) ∧
    (∀ st : IngredientFormState,
        (handleAddOrUpdateIngredient st).1.inventory = st.inventory ∨
        (∃ x, (handleAddOrUpdateIngredient st).1.inventory =
          st.inventory ++ [x]) ∨
        ((handleAddOrUpdateIngredient st).1.inventory.length =
            st.inventory.length ∧
          ∀ (i : Nat) (item : Ingredient), st.inventory[i]? = some item →
            st.editIngredientIndex ≠ some i →
            (handleAddOrUpdateIngredient st).1.inventory[i]? = some item)) ∧
    (∀ (inv : List Ingredient) (n : Ingredient),
        mergeOne inv n = inv ++ [n] ∨
        ((mergeOne inv n).length = inv.length ∧
          ∀ (i : Nat) (item : Ingredient), inv[i]? = some item →
            ∃ item', (mergeOne inv n)[i]? = some item' ∧
              item'.name = item.name ∧
              (i ≠ inv.findIdx (ingMatches n) → item' = item))) ∧
    (∀ prev ings : List Ingredient,
        prev.length ≤ (handleIngredientsAnalyzed prev ings).length ∧
        ∀ i : Nat, i < prev.length →
          ((handleIngredientsAnalyzed prev ings)[i]?).map Ingredient.name =
            (prev[i]?).map Ingredient.name) ∧
    (∀ inv : List Ingredient,
        (checkExpiry inv).length = inv.length ∧
        ∀ (i : Nat) (item : Ingredient), inv[i]? = some item →
          (checkExpiry inv)[i]? = some
            (if jsIncludes (jsToLower item.name) "milk" &&
                item.freshness == "good" then
              { item with freshness := "expiring" }
             else item)) ∧
    (∀ (idx : Nat) (inv : List Ingredient),
        (handleRemoveIngredient idx inv).Sublist inv) ∧
    (∀ (id : String) (l : List ShoppingListItem),
        (handleRemoveShoppingItem id l).Sublist l) ∧
    (∀ l : List ShoppingListItem,
        (clearCompletedShoppingItems l).Sublist l) := by
  refine ⟨fun _ _ _ _ _ => rfl, ?_, ?_, ?_, ?_, ?_, ?_, ?_, ?_, ?_, ?_, ?_, ?_, ?_⟩
  · intro text still msgs
    refine ⟨by simp [streamingUpdate], ?_⟩
    intro i m hm
    simp [streamingUpdate, hm]
  · intro newId text msgs
    cases hl : msgs.getLast? with
    | none =>
      left
      exact ⟨⟨newId, Sender.gemini, text, true⟩,
        by simp [outputTranscriptionUpdate, hl]⟩
    | some last =>
      by_cases hc : (last.sender == Sender.gemini && last.isStreaming) = true
      · right
        constructor
        · simp [outputTranscriptionUpdate, hl, hc]
        · intro i m hm
          refine ⟨if m.id = last.id then { m with text := last.text ++ text }
            else m, ?_, ?_, ?_, ?_⟩
          · simp [outputTranscriptionUpdate, hl, hc, hm]
          · by_cases hid : m.id = last.id <;> simp [hid]
          · by_cases hid : m.id = last.id <;> simp [hid]
          · by_cases hid : m.id = last.id <;> simp [hid]
      · left
        exact ⟨⟨newId, Sender.gemini, text, true⟩,
          by simp [outputTranscriptionUpdate, hl, hc]⟩
  · intro msgs
    refine ⟨by simp [turnCompleteUpdate], ?_⟩
    intro i m hm
    simp [turnCompleteUpdate, hm]
  · intro newId nm l
    by_cases h : jsTrim nm = ""
    · left; simp [handleAddShoppingItem, h]
    · right
      exact ⟨⟨newId, jsTrim nm, none, false⟩, by simp [handleAddShoppingItem, h]⟩
  · intro id nm l
    refine ⟨by simp [handleUpdateShoppingItem], ?_⟩
    intro i item hi
    simp [handleUpdateShoppingItem, hi]
  · intro id l
    refine ⟨by simp [handleToggleShoppingItem], ?_⟩
    intro i item hi
    simp [handleToggleShoppingItem, hi]
  · intro st
    by_cases h : jsTrim st.formName = "" ∨ jsTrim st.formQuantity = ""
    · left; simp [handleAddOrUpdateIngredient, h]
    · cases hk : st.editIngredientIndex with
      | none =>
        right; left
        exact ⟨⟨jsTrim st.formName, jsTrim st.formQuantity, st.formFreshness⟩,
          by simp [handleAddOrUpdateIngredient, h, hk]⟩
      | some k =>
        right; right
        constructor
        · simp [handleAddOrUpdateIngredient, h, hk]
        · intro i item hi hne
          have hki : ¬ i = k := fun he => hne (by rw [he])
          simp [handleAddOrUpdateIngredient, h, hk, hi, hki]
  · intro inv n
    by_cases h : inv.any (ingMatches n) = true
    · right
      obtain ⟨hlt, heq⟩ := updateFirstMatch_eq_set n inv h
      have hm : mergeOne inv n = inv.set (inv.findIdx (ingMatches n))
          { inv.getD (inv.findIdx (ingMatches n)) default with
              quantity := n.quantity, freshness := n.freshness } := by
        simpa [mergeOne, h] using heq
      constructor
      · rw [hm]; simp
      · intro i item hi
        by_cases hik : i = inv.findIdx (ingMatches n)
        · subst hik
          refine ⟨{ item with quantity := n.quantity, freshness := n.freshness },
            ?_, rfl, fun hne => absurd rfl hne⟩
          rw [hm]
          have hgetD : inv.getD (inv.findIdx (ingMatches n)) default = item := by
            simp [hi]
          rw [hgetD, List.getElem?_set]
          simp [hlt]
        · refine ⟨item, ?_, rfl, fun _ => rfl⟩
          rw [hm, List.getElem?_set_ne fun he => hik he.symm]
          exact hi
    · left; simp [mergeOne, h]
  · intro prev ings
    exact ⟨handleIngredientsAnalyzed_length prev ings,
      fun i hi => handleIngredientsAnalyzed_name_preserved prev ings i hi⟩
  · intro inv
    refine ⟨by simp [checkExpiry], ?_⟩
    intro i item hi
    simp [checkExpiry, hi, INVENTORY_MILK_EXPIRY_THRESHOLD_DAYS]
  · intro idx inv
    have h1 : ((inv.enum.filter fun p => p.1 ≠ idx).map Prod.snd).Sublist
        (inv.enum.map Prod.snd) := (List.filter_sublist _).map _
    simpa [handleRemoveIngredient, List.enum_map_snd] using h1
  · intro id l
    exact List.filter_sublist l
  · intro l
    exact List.filter_sublist l

/-- Witness for C3 (amended): the array-operations theorem applied at
concrete lists and indices, discharging the lookup, bound and edit-index
hypotheses. -/
theorem C3_array_operations_amended_witness :
    (([(⟨"g1", Sender.gemini, "Hi", true⟩ : ChatMessage)] :
        List ChatMessage)[0]? = some ⟨"g1", Sender.gemini, "Hi", true⟩) ∧
    ((streamingUpdate "Hello" false [⟨"g1", Sender.gemini, "Hi", true⟩])[0]? =
      some (if (⟨"g1", Sender.gemini, "Hi", true⟩ : ChatMessage).isStreaming then
        { (⟨"g1", Sender.gemini, "Hi", true⟩ : ChatMessage) with
            text := "Hello", isStreaming := false }
      else (⟨"g1", Sender.gemini, "Hi", true⟩ : ChatMessage))) ∧
    ((∃ x, outputTranscriptionUpdate "t1" "more"
        [⟨"g2", Sender.gemini, "Hi", true⟩] =
        [(⟨"g2", Sender.gemini, "Hi", true⟩ : ChatMessage)] ++ [x]) ∨
      ((outputTranscriptionUpdate "t1" "more"
          [⟨"g2", Sender.gemini, "Hi", true⟩]).length =
        ([(⟨"g2", Sender.gemini, "Hi", true⟩ : ChatMessage)] :
          List ChatMessage).length ∧
        ∀ (i : Nat) (m : ChatMessage),
          ([(⟨"g2", Sender.gemini, "Hi", true⟩ : ChatMessage)] :
            List ChatMessage)[i]? = some m →
          ∃ m', (outputTranscriptionUpdate "t1" "more"
              [⟨"g2", Sender.gemini, "Hi", true⟩])[i]? = some m' ∧
            m'.id = m.id ∧ m'.sender = m.sender ∧
            m'.isStreaming = m.isStreaming)) ∧
    (([(⟨"s1", "eggs", none, true⟩ : ShoppingListItem)] :
        List ShoppingListItem)[0]? = some ⟨"s1", "eggs", none, true⟩) ∧
    ((handleToggleShoppingItem "s1" [⟨"s1", "eggs", none, true⟩])[0]? =
      some (if (⟨"s1", "eggs", none, true⟩ : ShoppingListItem).id = "s1" then
        { (⟨"s1", "eggs", none, true⟩ : ShoppingListItem) with
            checked := !(⟨"s1", "eggs", none, true⟩ : ShoppingListItem).checked }
      else (⟨"s1", "eggs", none, true⟩ : ShoppingListItem))) ∧
    (([(⟨"oat milk", "1", "good"⟩ : Ingredient)] : List Ingredient)[0]? =
      some ⟨"oat milk", "1", "good"⟩) ∧
    ((checkExpiry [⟨"oat milk", "1", "good"⟩])[0]? =
      some (if jsIncludes (jsToLower
            (⟨"oat milk", "1", "good"⟩ : Ingredient).name) "milk" &&
          (⟨"oat milk", "1", "good"⟩ : Ingredient).freshness == "good" then
        { (⟨"oat milk", "1", "good"⟩ : Ingredient) with freshness := "expiring" }
      else (⟨"oat milk", "1", "good"⟩ : Ingredient))) ∧
    ((0 : Nat) < ([(⟨"butter", "1", "fresh"⟩ : Ingredient)] :
        List Ingredient).length ∧
      ((handleIngredientsAnalyzed [⟨"butter", "1", "fresh"⟩]
          [⟨"Butter", "2", "good"⟩])[0]?).map Ingredient.name =
        (([(⟨"butter", "1", "fresh"⟩ : Ingredient)] :
          List Ingredient)[0]?).map Ingredient.name) := by
  refine ⟨rfl, ?_, ?_, rfl, ?_, rfl, ?_, by decide, ?_⟩
  · exact (C3_array_operations_amended.2.1 "Hello" false
      [⟨"g1", Sender.gemini, "Hi", true⟩]).2 0 _ rfl
  · exact C3_array_operations_amended.2.2.1 "t1" "more"
      [⟨"g2", Sender.gemini, "Hi", true⟩]
  · exact (C3_array_operations_amended.2.2.2.2.2.2.1 "s1"
      [⟨"s1", "eggs", none, true⟩]).2 0 _ rfl
  · exact (C3_array_operations_amended.2.2.2.2.2.2.2.2.2.2.1
      [⟨"oat milk", "1", "good"⟩]).2 0 _ rfl
  · exact (C3_array_operations_amended.2.2.2.2.2.2.2.2.2.1
      [⟨"butter", "1", "fresh"⟩] [⟨"Butter", "2", "good"⟩]).2 0 (by decide)

/-- C6 counterexample: submitting a blank shopping-list item name leaves
the list unchanged but shows no validation message (the handler returns
silently), contrary to the claim that every blank submit shows one. -/
theorem C6_counterexample :
    (handleAddShoppingItem "id1" "   " []).2 = none ∧
    (handleAddShoppingItem "id1" "   " []).1 = [] := by
  constructor
  · decide
  · decide

/-- C6 (amended): on empty or whitespace-only input every submit handler
returns with its state unchanged; `handleAddOrUpdateIngredient` shows the
alert "Ingredient name and quantity cannot be empty.", while
`handleAddShoppingItem` and `handleSendMessage` return silently with no
validation message. -/
theorem C6_blank_input_amended :
    (∀ st : IngredientFormState,
        jsTrim st.formName = "" ∨ jsTrim st.formQuantity = "" →
        handleAddOrUpdateIngredient st =
          (st, some "Ingredient name and quantity cannot be empty.")) ∧
    (∀ (newId nm : String) (l : List ShoppingListItem),
        jsTrim nm = "" →
        handleAddShoppingItem newId nm l = (l, none)) ∧
    (∀ (newId text : String) (st : ChatState),
        jsTrim text = "" →
        handleSendMessage newId text st = st) := by
  refine ⟨?_, ?_, ?_⟩
  · intro st h
    simp [handleAddOrUpdateIngredient, h]
  · intro newId nm l h
    simp [handleAddShoppingItem, h]
  · intro newId text st h
    simp [handleSendMessage, h]

/-- Witness for C6 (amended): the blank-input theorem applied at concrete
blank inputs, discharging each hypothesis. -/
theorem C6_blank_input_amended_witness :
    (jsTrim "" = "" ∨ jsTrim "2" = "") ∧
    handleAddOrUpdateIngredient ⟨[], "", "2", "fresh", none⟩ =
      (⟨[], "", "2", "fresh", none⟩,
        some "Ingredient name and quantity cannot be empty.") ∧
    jsTrim " " = "" ∧
    handleAddShoppingItem "i" " " [] = ([], none) ∧
    handleSendMessage "i" " " ⟨[], " ", false, none⟩ = ⟨[], " ", false, none⟩ := by
  refine ⟨Or.inl (by decide), ?_, by decide, ?_, ?_⟩
  · exact C6_blank_input_amended.1 _ (Or.inl (by decide))
  · exact C6_blank_input_amended.2.1 _ _ _ (by decide)
  · exact C6_blank_input_amended.2.2 _ _ _ (by decide)

/-- C10: toggling a shopping-list item negates the `checked` flag of each
item whose id matches and changes nothing else: length, order, ids,
names, quantities, and all non-matching items are unchanged. -/
theorem C10_toggle_frame (id : String) (l : List ShoppingListItem) :
    (handleToggleShoppingItem id l).length = l.length ∧
    ∀ (i : Nat) (item : ShoppingListItem), l[i]? = some item →
      (handleToggleShoppingItem id l)[i]? = some
        { item with checked := if item.id = id then !item.checked else item.checked } := by
  constructor
  · simp [handleToggleShoppingItem]
  · intro i item hi
    have : (handleToggleShoppingItem id l)[i]? =
        (l[i]?).map fun item =>
          if item.id = id then { item with checked := !item.checked } else item := by
      simp [handleToggleShoppingItem]
    rw [this, hi]
    by_cases h : item.id = id
    · simp [h]
    · obtain ⟨iid, nm, q, ch⟩ := item
      simp only [Option.map_some]
      simp only [if_neg h]
      simp [if_neg (by simpa using h)]

/-- Witness for C10: the toggle frame theorem applied at a concrete list
and index, discharging the lookup hypothesis. -/
theorem C10_toggle_frame_witness :
    ([(⟨"a", "milk", none, false⟩ : ShoppingListItem)][0]? =
      some ⟨"a", "milk", none, false⟩) ∧
    (handleToggleShoppingItem "a" [⟨"a", "milk", none, false⟩])[0]? = some
      { (⟨"a", "milk", none, false⟩ : ShoppingListItem) with
          checked := if (⟨"a", "milk", none, false⟩ : ShoppingListItem).id = "a"
            then !(⟨"a", "milk", none, false⟩ : ShoppingListItem).checked
            else (⟨"a", "milk", none, false⟩ : ShoppingListItem).checked } :=
  ⟨rfl, (C10_toggle_frame "a" [⟨"a", "milk", none, false⟩]).2 0 _ rfl⟩

/-! ### Ingredient categorization (`categorizeIngredients`)
The source walks the inventory, computes a category name for each item
with an if-chain of keyword tests on the lowercased name, and pushes the
item onto `categories[category]`; a JavaScript object keeps its keys in
insertion order, which the association list below mirrors. -/

/-- The if-chain assigning a category name to an ingredient (first match
of the keyword groups wins, `Other` when none matches). -/
def categoryOf (item : Ingredient) : String :=
  if jsIncludes (jsToLower item.name) "milk" ||
      jsIncludes (jsToLower item.name) "cheese" ||
      jsIncludes (jsToLower item.name) "yogurt" then "Dairy"
  else if jsIncludes (jsToLower item.name) "chicken" ||
      jsIncludes (jsToLower item.name) "beef" ||
      jsIncludes (jsToLower item.name) "fish" then "Meat & Seafood"
  else if jsIncludes (jsToLower item.name) "carrot" ||
      jsIncludes (jsToLower item.name) "apple" ||
      jsIncludes (jsToLower item.name) "lettuce" then "Produce"
  else if jsIncludes (jsToLower item.name) "bread" ||
      jsIncludes (jsToLower item.name) "rice" ||
      jsIncludes (jsToLower item.name) "pasta" then "Pantry & Grains"
  else "Other"

/-- Push an item onto the bucket of its category, creating the bucket at
the end when the key is new (the object update
`categories[category].push(item)`). -/
def addToCategory (cats : List (String × List Ingredient)) (c : String)
    (item : Ingredient) : List (String × List Ingredient) :=
  match cats with
  | [] => [(c, [item])]
  | (k, l) :: rest =>
    if k = c then (k, l ++ [item]) :: rest
    else (k, l) :: addToCategory rest c item

/-- Translation of `categorizeIngredients`: fold the `forEach` body over
the inventory starting from the empty object. -/
def categorizeIngredients (ingredients : List Ingredient) :
    List (String × List Ingredient) :=
  ingredients.foldl (fun cats item => addToCategory cats (categoryOf item) item) []

theorem addToCategory_flatten (cats : List (String × List Ingredient))
    (c : String) (item : Ingredient) :
    ((addToCategory cats c item).map Prod.snd).flatten.Perm
      (((cats.map Prod.snd).flatten) ++ [item]) := by
  induction cats with
  | nil => simp [addToCategory]
  | cons p rest ih =>
    obtain ⟨k, l⟩ := p
    by_cases h : k = c
    · simp only [addToCategory, if_pos h, List.map_cons, List.flatten_cons,
        List.append_assoc, List.singleton_append]
      exact ((List.perm_append_singleton item
        ((rest.map Prod.snd).flatten)).symm).append_left l
    · simp only [addToCategory, if_neg h, List.map_cons, List.flatten_cons,
        List.append_assoc]
      exact ih.append_left l

theorem addToCategory_wellPlaced (cats : List (String × List Ingredient))
    (c : String) (item : Ingredient) (hc : categoryOf item = c)
    (hw : ∀ p ∈ cats, ∀ i ∈ p.2, categoryOf i = p.1) :
    ∀ p ∈ addToCategory cats c item, ∀ i ∈ p.2, categoryOf i = p.1 := by
  induction cats with
  | nil =>
    intro p hp i hi
    simp [addToCategory] at hp
    subst hp
    simp at hi
    subst hi
    exact hc
  | cons q rest ih =>
    obtain ⟨k, l⟩ := q
    by_cases h : k = c
    · intro p hp i hi
      simp only [addToCategory, if_pos h] at hp
      rcases List.mem_cons.mp hp with hp | hp
      · subst hp
        simp only at hi
        rcases List.mem_append.mp hi with hi | hi
        · exact hw (k, l) (List.mem_cons_self _ _) i hi
        · simp at hi
          subst hi
          rw [hc, h]
      · exact hw p (List.mem_cons_of_mem _ hp) i hi
    · intro p hp i hi
      simp only [addToCategory, if_neg h] at hp
      rcases List.mem_cons.mp hp with hp | hp
      · subst hp
        exact hw (k, l) (List.mem_cons_self _ _) i hi
      · exact ih (fun p hp => hw p (List.mem_cons_of_mem _ hp)) p hp i hi

theorem categorizeIngredients_foldl_flatten (ingredients : List Ingredient)
    (cats : List (String × List Ingredient)) :
    (((ingredients.foldl
        (fun cats item => addToCategory cats (categoryOf item) item)
        cats).map Prod.snd).flatten).Perm
      ((cats.map Prod.snd).flatten ++ ingredients) := by
  induction ingredients generalizing cats with
  | nil => simp
  | cons i rest ih =>
    have h1 := ih (addToCategory cats (categoryOf i) i)
    have h2 := (addToCategory_flatten cats (categoryOf i) i).append_right rest
    have h3 : ((cats.map Prod.snd).flatten ++ [i]) ++ rest =
        (cats.map Prod.snd).flatten ++ (i :: rest) := by simp
    rw [h3] at h2
    simpa [List.foldl_cons] using h1.trans h2

/-- C9: `categorizeIngredients` partitions its input.  The buckets
contain exactly the items whose `categoryOf` (first matching keyword
group, `Other` otherwise) equals the bucket key, the concatenation of all
buckets is a permutation of the input (equal as multisets), and the
bucket sizes sum to the input length. -/
theorem C9_categorize_partition (ingredients : List Ingredient) :
    (((categorizeIngredients ingredients).map Prod.snd).flatten).Perm ingredients ∧
    ((categorizeIngredients ingredients).map fun p => p.2.length).sum =
      ingredients.length ∧
    ∀ p ∈ categorizeIngredients ingredients, ∀ i ∈ p.2, categoryOf i = p.1 := by
  have hperm : (((categorizeIngredients ingredients).map Prod.snd).flatten).Perm
      ingredients := by
    simpa [categorizeIngredients] using
      categorizeIngredients_foldl_flatten ingredients []
  refine ⟨hperm, ?_, ?_⟩
  · have hlen := hperm.length_eq
    simpa [List.length_flatten, Function.comp] using hlen
  · have : ∀ (ings : List Ingredient) (cats : List (String × List Ingredient)),
        (∀ p ∈ cats, ∀ i ∈ p.2, categoryOf i = p.1) →
        ∀ p ∈ ings.foldl
          (fun cats item => addToCategory cats (categoryOf item) item) cats,
          ∀ i ∈ p.2, categoryOf i = p.1 := by
      intro ings
      induction ings with
      | nil => intro cats hw; simpa using hw
      | cons j rest ih =>
        intro cats hw
        exact ih (addToCategory cats (categoryOf j) j)
          (addToCategory_wellPlaced cats (categoryOf j) j rfl hw)
    exact this ingredients [] (by simp)

/-- Witness for C9: the partition theorem applied at a concrete
inventory, discharging the bucket- and item-membership hypotheses. -/
theorem C9_categorize_partition_witness :
    ("Dairy", [(⟨"whole milk", "1", "fresh"⟩ : Ingredient)]) ∈
      categorizeIngredients [⟨"whole milk", "1", "fresh"⟩] ∧
    (⟨"whole milk", "1", "fresh"⟩ : Ingredient) ∈
      [(⟨"whole milk", "1", "fresh"⟩ : Ingredient)] ∧
    categoryOf ⟨"whole milk", "1", "fresh"⟩ = "Dairy" :=
  ⟨by decide, by decide,
    (C9_categorize_partition [⟨"whole milk", "1", "fresh"⟩]).2.2
      ("Dairy", [⟨"whole milk", "1", "fresh"⟩]) (by decide)
      ⟨"whole milk", "1", "fresh"⟩ (by decide)⟩

/-! ### Recipe filters (`RecipeDisplay.tsx`)
`filteredRecipes` keeps every recipe when no filter chip is active and
otherwise keeps a recipe when some active filter accepts it; the inner
predicate only inspects `Vegetarian` and `Low Carb` and answers `true`
for every other filter name. -/

/-- The four filter chips of the component. -/
def allFilters : List String :=
  ["Quick (<30 Mins)", "Vegetarian", "Low Carb", "High Protein"]

/-- Translation of `toggleFilter`: remove an active filter, append an
inactive one. -/
def toggleFilter (f : String) (activeFilters : List String) : List String :=
  if activeFilters.contains f then activeFilters.filter fun g => g ≠ f
  else activeFilters ++ [f]

/-- Translation of the predicate inside `recipes.filter`: with no active
filters every recipe passes, otherwise `activeFilters.some(...)` with the
`Vegetarian` / `Low Carb` substring tests and `true` for any other
filter. -/
def recipePassesFilter (activeFilters : List String) (recipe : Recipe) : Bool :=
  if activeFilters.length = 0 then true
  else activeFilters.any fun f =>
    if f = "Vegetarian" then jsIncludes (jsToLower recipe.summary) "vegetarian"
    else if f = "Low Carb" then jsIncludes (jsToLower recipe.healthInsight) "low carb"
    else true

/-- Translation of `filteredRecipes`. -/
def filteredRecipes (activeFilters : List String) (recipes : List Recipe) :
    List Recipe :=
  recipes.filter (recipePassesFilter activeFilters)

/-- Modelled from the spec wording of the claim, for the refinement
comparison: which recipes each named filter accepts.  `Vegetarian`
accepts the recipes whose summary contains "vegetarian"
(case-insensitive), `Low Carb` those whose healthInsight contains
"low carb" (case-insensitive), and `Quick (<30 Mins)` and `High Protein`
accept every recipe. -/
def specFilterAccepts (f : String) (recipe : Recipe) : Bool :=
  if f = "Vegetarian" then jsIncludes (jsToLower recipe.summary) "vegetarian"
  else if f = "Low Carb" then jsIncludes (jsToLower recipe.healthInsight) "low carb"
  else if f = "Quick (<30 Mins)" then true
  else if f = "High Protein" then true
  else false

theorem any_congr_mem {α : Type} (l : List α) (p q : α → Bool)
    (h : ∀ x ∈ l, p x = q x) : l.any p = l.any q := by
  induction l with
  | nil => rfl
  | cons a tl ih =>
    have ha := h a (List.mem_cons_self _ _)
    have htl := ih fun x hx => h x (List.mem_cons_of_mem _ hx)
    simp [List.any_cons, ha, htl]

/-- C7: when the active filters are drawn from the four filter chips, the
displayed list equals the input recipes filtered by the acceptance
predicate of the claim: everything passes with no active filter, and
otherwise a recipe passes exactly when some active filter accepts it. -/
theorem C7_filteredRecipes (activeFilters : List String) (recipes : List Recipe)
    (h : ∀ f ∈ activeFilters, f ∈ allFilters) :
    filteredRecipes activeFilters recipes =
      recipes.filter fun r =>
        activeFilters.isEmpty || activeFilters.any fun f => specFilterAccepts f r := by
  unfold filteredRecipes
  apply List.filter_congr
  intro r _
  by_cases hemp : activeFilters = []
  · subst hemp
    simp [recipePassesFilter]
  · have hlen : activeFilters.length ≠ 0 := by
      simpa [List.length_eq_zero] using hemp
    have hne : activeFilters.isEmpty = false := by
      simpa [List.isEmpty_iff] using hemp
    rw [recipePassesFilter, if_neg hlen, hne, Bool.false_or]
    apply any_congr_mem
    intro f hf
    have : f ∈ allFilters := h f hf
    simp only [allFilters, List.mem_cons, List.not_mem_nil, or_false] at this
    rcases this with hf' | hf' | hf' | hf' <;> subst hf' <;>
      simp [specFilterAccepts]

/-- Witness for C7: the filter theorem applied with the concrete active
filters `["Vegetarian", "High Protein"]` and a concrete recipe list,
discharging the chip-membership hypothesis. -/
theorem C7_filteredRecipes_witness :
    (∀ f ∈ ["Vegetarian", "High Protein"], f ∈ allFilters) ∧
    filteredRecipes ["Vegetarian", "High Protein"]
        [⟨"Salad", "A crisp vegetarian salad", "Low carb and light", []⟩] =
      [(⟨"Salad", "A crisp vegetarian salad", "Low carb and light", []⟩ : Recipe)].filter
        fun r => (["Vegetarian", "High Protein"] : List String).isEmpty ||
          (["Vegetarian", "High Protein"] : List String).any fun f =>
            specFilterAccepts f r :=
  ⟨by decide,
    C7_filteredRecipes ["Vegetarian", "High Protein"]
      [⟨"Salad", "A crisp vegetarian salad", "Low carb and light", []⟩]
      (by decide)⟩

/-! ### Live-session audio scheduling (`ChatInterface`)
`handleLiveSessionMessage` first schedules any model audio chunk carried
by the message — start time `max(nextOutputAudioStartTime, currentTime)`,
then `nextOutputAudioStartTime += buffer.duration` and the source is
added to the active set — and afterwards handles the `interrupted` flag
by stopping every active source and resetting the start time to `0`
(`stopAllAudioPlayback`).  Clock values and durations (floats in the
browser) are modelled as rationals; the set of active sources as a list
of `(source id, scheduled start)` pairs (the `ended` listener that also
removes finished sources fires asynchronously and is not part of these
handlers).  The transcription, turn-complete and tool-call branches only
touch chat state and are modelled with the chat operations above. -/

/-- The audio-output state held in `nextOutputAudioStartTimeRef` and
`outputAudioSourcesRef`. -/
structure LiveAudioState where
  nextOutputAudioStartTime : ℚ
  outputAudioSources : List (Nat × ℚ)
deriving Repr, DecidableEq

/-- Translation of `stopAllAudioPlayback`: stop and drop every active
source and reset the next start time to `0`. -/
def stopAllAudioPlayback (_st : LiveAudioState) : LiveAudioState :=
  { nextOutputAudioStartTime := 0, outputAudioSources := [] }

/-- The parts of a `LiveServerMessage` the audio logic inspects:
an optional model audio chunk (source id and decoded duration), the
`turnComplete` flag and the `interrupted` flag. -/
structure ServerMessage where
  audioChunk : Option (Nat × ℚ)
  turnComplete : Bool
  interrupted : Bool
deriving Repr, DecidableEq

/-- Translation of the audio-relevant behaviour of
`handleLiveSessionMessage` at output-context clock value `currentTime`:
schedule the chunk (if any), then stop everything if `interrupted`. -/
def handleLiveSessionMessage (currentTime : ℚ) (msg : ServerMessage)
    (st : LiveAudioState) : LiveAudioState :=
  let st1 :=
    match msg.audioChunk with
    | some (sid, dur) =>
      let nextStart := max st.nextOutputAudioStartTime currentTime
      { nextOutputAudioStartTime := nextStart + dur,
        outputAudioSources := st.outputAudioSources ++ [(sid, nextStart)] }
    | none => st
  if msg.interrupted then stopAllAudioPlayback st1 else st1

/-- The start-time recurrence of the scheduler iterated over a sequence
of audio chunks: each input pair is (output-context clock when the chunk
arrives, decoded buffer duration) and each output pair is (scheduled
start, duration), exactly one step of the audio branch of
`handleLiveSessionMessage` per chunk. -/
def runChunks (nextStart : ℚ) : List (ℚ × ℚ) → List (ℚ × ℚ)
  | [] => []
  | (t, d) :: rest =>
    (max nextStart t, d) :: runChunks (max nextStart t + d) rest

/-- The hypothesis of the gapless consequence: every chunk after the
first arrives no later than the scheduled end of its predecessor. -/
def timely (nextStart : ℚ) : List (ℚ × ℚ) → Bool
  | [] => true
  | (t, d) :: rest =>
    (match rest with
     | [] => true
     | (t2, _) :: _ => decide (t2 ≤ max nextStart t + d)) &&
    timely (max nextStart t + d) rest

/-- C2: an audio chunk is scheduled to start at the maximum of the
recorded next-start time and the output-context clock, after which the
next-start time advances by exactly the buffer duration; consequently a
chunk sequence in which every chunk arrives before the scheduled end of
its predecessor is scheduled back-to-back, with neither gap nor
overlap. -/
theorem C2_gapless_scheduling :
    (∀ (st : LiveAudioState) (currentTime : ℚ) (sid : Nat) (dur : ℚ)
        (msg : ServerMessage),
        msg.audioChunk = some (sid, dur) → msg.interrupted = false →
        (handleLiveSessionMessage currentTime msg st).outputAudioSources =
          st.outputAudioSources ++
            [(sid, max st.nextOutputAudioStartTime currentTime)] ∧
        (handleLiveSessionMessage currentTime msg st).nextOutputAudioStartTime =
          max st.nextOutputAudioStartTime currentTime + dur) ∧
    (∀ (nextStart : ℚ) (chunks : List (ℚ × ℚ)),
        timely nextStart chunks = true →
        List.Chain' (fun a b => b.1 = a.1 + a.2) (runChunks nextStart chunks)) := by
  constructor
  · intro st currentTime sid dur msg hchunk hint
    constructor
    · simp [handleLiveSessionMessage, hchunk, hint]
    · simp [handleLiveSessionMessage, hchunk, hint]
  · intro nextStart chunks
    induction chunks generalizing nextStart with
    | nil =>
      intro _
      simp [runChunks]
    | cons c rest ih =>
      obtain ⟨t, d⟩ := c
      intro h
      cases rest with
      | nil =>
        simp [runChunks]
      | cons c2 rest2 =>
        obtain ⟨t2, d2⟩ := c2
        rw [show timely nextStart ((t, d) :: (t2, d2) :: rest2) =
          (decide (t2 ≤ max nextStart t + d) &&
            timely (max nextStart t + d) ((t2, d2) :: rest2)) from rfl] at h
        obtain ⟨ht2', htl⟩ := Bool.and_eq_true_iff.mp h
        have ht2 : t2 ≤ max nextStart t + d := of_decide_eq_true ht2'
        have htail := ih (max nextStart t + d) htl
        have hmax : max (max nextStart t + d) t2 = max nextStart t + d :=
          max_eq_left ht2
        rw [runChunks, runChunks]
        rw [runChunks] at htail
        refine List.chain'_cons'.mpr ⟨?_, htail⟩
        intro y hy
        simp only [hmax, List.head?_cons, Option.mem_def, Option.some.injEq] at hy
        subst hy
        simp [hmax]

/-- Witness for C2: the scheduling theorem applied at a concrete state,
message and timely chunk sequence, discharging each hypothesis. -/
theorem C2_gapless_scheduling_witness :
    ((⟨some (7, 2), false, false⟩ : ServerMessage).audioChunk = some (7, 2) ∧
      (⟨some (7, 2), false, false⟩ : ServerMessage).interrupted = false ∧
      (handleLiveSessionMessage 1 ⟨some (7, 2), false, false⟩
          ⟨0, []⟩).outputAudioSources =
        ([] : List (Nat × ℚ)) ++ [(7, max (0 : ℚ) 1)] ∧
      (handleLiveSessionMessage 1 ⟨some (7, 2), false, false⟩
          ⟨0, []⟩).nextOutputAudioStartTime = max (0 : ℚ) 1 + 2) ∧
    (timely (0 : ℚ) [((0 : ℚ), (1 : ℚ)), ((0 : ℚ), (2 : ℚ))] = true ∧
      List.Chain' (fun a b => b.1 = a.1 + a.2)
        (runChunks (0 : ℚ) [((0 : ℚ), (1 : ℚ)), ((0 : ℚ), (2 : ℚ))])) := by
  have h1 := C2_gapless_scheduling.1 ⟨0, []⟩ 1 7 2 ⟨some (7, 2), false, false⟩
    rfl rfl
  have htimely : timely (0 : ℚ) [((0 : ℚ), (1 : ℚ)), ((0 : ℚ), (2 : ℚ))] = true := by
    norm_num [timely]
  have h2 := C2_gapless_scheduling.2 0 [((0 : ℚ), (1 : ℚ)), ((0 : ℚ), (2 : ℚ))]
    htimely
  exact ⟨⟨rfl, rfl, h1.1, h1.2⟩, htimely, h2⟩

/-- C5: a live-session message carrying the `interrupted` flag leaves the
audio state with no scheduled output source remaining and the next
playback start time reset to `0`. -/
theorem C5_interrupted_clears_audio (currentTime : ℚ) (msg : ServerMessage)
    (st : LiveAudioState) (h : msg.interrupted = true) :
    (handleLiveSessionMessage currentTime msg st).outputAudioSources = [] ∧
    (handleLiveSessionMessage currentTime msg st).nextOutputAudioStartTime = 0 := by
  cases hc : msg.audioChunk with
  | none => simp [handleLiveSessionMessage, hc, h, stopAllAudioPlayback]
  | some p =>
    obtain ⟨sid, dur⟩ := p
    simp [handleLiveSessionMessage, hc, h, stopAllAudioPlayback]

/-- Witness for C5: the interruption theorem applied at a concrete
message with the `interrupted` flag set, discharging the hypothesis. -/
theorem C5_interrupted_clears_audio_witness :
    (⟨some (3, 2), false, true⟩ : ServerMessage).interrupted = true ∧
    ((handleLiveSessionMessage 5 ⟨some (3, 2), false, true⟩
        ⟨4, [(1, 0)]⟩).outputAudioSources = [] ∧
      (handleLiveSessionMessage 5 ⟨some (3, 2), false, true⟩
        ⟨4, [(1, 0)]⟩).nextOutputAudioStartTime = 0) :=
  ⟨rfl, C5_interrupted_clears_audio 5 ⟨some (3, 2), false, true⟩ ⟨4, [(1, 0)]⟩ rfl⟩

/-! ### Base64 framing of live-session audio (`geminiService`)
The source `encode` turns a `Uint8Array` into a binary string with
`String.fromCharCode` and applies the browser builtin `btoa`; `decode`
applies `atob` and reads the code points back with `charCodeAt`.  Since
`fromCharCode`/`charCodeAt` are mutually inverse on code points below
256, both functions are modelled directly on the byte list: `btoa` and
`atob` below are the RFC 4648 base64 encoder and (on padded well-formed
input, which is all `btoa` produces) decoder that the browser builtins
implement. -/

/-- The 64-character base64 alphabet used by `btoa`/`atob`. -/
def base64Chars : List Char :=
  ("ABCDEFGHIJKLMNOPQRSTUVWXYZabcdefghijklmnopqrstuvwxyz0123456789+/").data

/-- The alphabet character of a sextet value. -/
def b64Char (n : Nat) : Char := base64Chars.getD n '='

/-- The sextet value of an alphabet character. -/
def b64Index (c : Char) : Nat := base64Chars.indexOf c

/-- Model of the browser builtin `btoa` on the byte values of its binary
string: three bytes become four alphabet characters, a trailing one or
two bytes are padded with `=`. -/
def btoa : List Nat → List Char
  | [] => []
  | [b0] => [b64Char (b0 / 4), b64Char (b0 % 4 * 16), '=', '=']
  | [b0, b1] =>
    [b64Char (b0 / 4), b64Char (b0 % 4 * 16 + b1 / 16), b64Char (b1 % 16 * 4), '=']
  | b0 :: b1 :: b2 :: rest =>
    b64Char (b0 / 4) :: b64Char (b0 % 4 * 16 + b1 / 16) ::
      b64Char (b1 % 16 * 4 + b2 / 64) :: b64Char (b2 % 64) :: btoa rest

/-- Model of the browser builtin `atob` on padded well-formed base64
text (the shape `btoa` produces), yielding the byte values of the binary
string. -/
def atob : List Char → List Nat
  | c0 :: c1 :: c2 :: c3 :: rest =>
    if c2 = '=' then [b64Index c0 * 4 + b64Index c1 / 16]
    else if c3 = '=' then
      [b64Index c0 * 4 + b64Index c1 / 16, b64Index c1 % 16 * 16 + b64Index c2 / 4]
    else
      (b64Index c0 * 4 + b64Index c1 / 16) ::
        (b64Index c1 % 16 * 16 + b64Index c2 / 4) ::
        (b64Index c2 % 4 * 64 + b64Index c3) :: atob rest
  | _ => []

/-- Translation of the source `encode` (build a binary string from the
bytes, then `btoa`). -/
def encode (bytes : List Nat) : List Char := btoa bytes

/-- Translation of the source `decode` (`atob`, then read the bytes back
off the binary string). -/
def decode (chars : List Char) : List Nat := atob chars

theorem b64_round : ∀ n, n < 64 → b64Index (b64Char n) = n ∧ b64Char n ≠ '=' := by
  decide

/-- C8: on byte arrays (every entry below 256) the live-session `decode`
is a left inverse of the PCM-framing `encode`. -/
theorem C8_decode_encode (bytes : List Nat) (h : ∀ b ∈ bytes, b < 256) :
    decode (encode bytes) = bytes := by
  unfold decode encode
  induction bytes using btoa.induct with
  | case1 => rfl
  | case2 b0 =>
    have hb0 : b0 < 256 := h b0 (by simp)
    have h1 := b64_round (b0 / 4) (by omega)
    have h2 := b64_round (b0 % 4 * 16) (by omega)
    rw [btoa, atob]
    rw [if_pos rfl]
    rw [h1.1, h2.1]
    congr 1
    omega
  | case3 b0 b1 =>
    have hb0 : b0 < 256 := h b0 (by simp)
    have hb1 : b1 < 256 := h b1 (by simp)
    have h1 := b64_round (b0 / 4) (by omega)
    have h2 := b64_round (b0 % 4 * 16 + b1 / 16) (by omega)
    have h3 := b64_round (b1 % 16 * 4) (by omega)
    rw [btoa, atob]
    rw [if_neg h3.2, if_pos rfl]
    rw [h1.1, h2.1, h3.1]
    congr 1
    · omega
    congr 1
    omega
  | case4 b0 b1 b2 rest ih =>
    have hb0 : b0 < 256 := h b0 (by simp)
    have hb1 : b1 < 256 := h b1 (by simp)
    have hb2 : b2 < 256 := h b2 (by simp)
    have hrest : ∀ b ∈ rest, b < 256 := fun b hb => h b (by simp [hb])
    have h1 := b64_round (b0 / 4) (by omega)
    have h2 := b64_round (b0 % 4 * 16 + b1 / 16) (by omega)
    have h3 := b64_round (b1 % 16 * 4 + b2 / 64) (by omega)
    have h4 := b64_round (b2 % 64) (by omega)
    rw [btoa, atob]
    rw [if_neg h3.2, if_neg h4.2]
    rw [ih hrest]
    rw [h1.1, h2.1, h3.1, h4.1]
    congr 1
    · omega
    congr 1
    · omega
    congr 1
    omega

/-- Witness for C8: the round-trip theorem applied to a concrete byte
array exercising all three padding shapes, discharging the byte-range
hypothesis. -/
theorem C8_decode_encode_witness :
    (∀ b ∈ [0, 1, 255, 42, 200], b < 256) ∧
    decode (encode [0, 1, 255, 42, 200]) = [0, 1, 255, 42, 200] :=
  ⟨by decide, C8_decode_encode [0, 1, 255, 42, 200] (by decide)⟩

/-! ### Error propagation of the API-calling handlers
The handlers are async functions combining awaited API calls, error-state
writes, `try`/`catch` and callback registration (`reader.onloadend`).
The mini-language below captures the JavaScript control flow that decides
whether an error is caught: statements of the current task run in order;
an awaited API call either succeeds or throws per an oracle; a
`tryBlock` runs its body and, when the body completes with an exception,
writes the formatted message into the given error slot; a registered
callback body does not run inside the registering task — it runs after
the task (and its `try`/`catch`) has finished, as its own task, so an
exception it raises is an unhandled rejection.  The `finally` blocks of
the source only reset loading flags and are omitted; callbacks of the
modelled handlers register no further callbacks. -/

/-- The three UI error states of the claim. -/
inductive ErrSlot where
  | imageAnalysis
  | recipeGeneration
  | chat
deriving Repr, DecidableEq

/-- Statements of the handler control-flow language. -/
inductive Stmt where
  | setErr (slot : ErrSlot) (v : Option String)
  | apiCall (nm : String)
  | registerCallback (body : List Stmt)
  | tryBlock (body : List Stmt) (slot : ErrSlot) (fmt : String → String)

/-- The error-relevant UI state: the three error strings, the callbacks
registered but not yet run, and the messages of unhandled rejections. -/
structure UIErrState where
  imageAnalysisError : Option String
  recipeGenerationError : Option String
  chatError : Option String
  pending : List (List Stmt)
  uncaught : List String

/-- Write an error slot. -/
def setSlot (st : UIErrState) (slot : ErrSlot) (v : Option String) : UIErrState :=
  match slot with
  | .imageAnalysis => { st with imageAnalysisError := v }
  | .recipeGeneration => { st with recipeGenerationError := v }
  | .chat => { st with chatError := v }

/-- Run a statement list inside one task; the second component is the
exception (if any) propagating out of the list. -/
def execStmts (oracle : String → Option String) :
    List Stmt → UIErrState → UIErrState × Option String
  | [], st => (st, none)
  | Stmt.setErr slot v :: rest, st => execStmts oracle rest (setSlot st slot v)
  | Stmt.apiCall nm :: rest, st =>
    match oracle nm with
    | some msg => (st, some msg)
    | none => execStmts oracle rest st
  | Stmt.registerCallback body :: rest, st =>
    execStmts oracle rest { st with pending := st.pending ++ [body] }
  | Stmt.tryBlock body slot fmt :: rest, st =>
    match execStmts oracle body st with
    | (st2, some msg) => execStmts oracle rest (setSlot st2 slot (some (fmt msg)))
    | (st2, none) => execStmts oracle rest st2

/-- Run the registered callbacks, each as its own task: an exception
escaping a callback becomes an unhandled rejection. -/
def runPending (oracle : String → Option String) :
    List (List Stmt) → UIErrState → UIErrState
  | [], st => st
  | body :: rest, st =>
    match execStmts oracle body st with
    | (st2, some msg) =>
      runPending oracle rest { st2 with uncaught := st2.uncaught ++ [msg] }
    | (st2, none) => runPending oracle rest st2

/-- The initial UI state: no errors, no pending callbacks. -/
def initUIErrState : UIErrState := ⟨none, none, none, [], []⟩

/-- Run a handler from the initial state: the handler task first, then
the callbacks it registered. -/
def runHandler (oracle : String → Option String) (main : List Stmt) : UIErrState :=
  match execStmts oracle main initUIErrState with
  | (st, some msg) =>
    runPending oracle st.pending
      { st with pending := [], uncaught := st.uncaught ++ [msg] }
  | (st, none) => runPending oracle st.pending { st with pending := [] }

/-- Translation of `initiateFullScanProcess` (App): clear both error
slots, then inside `try` await `analyzeImage` and `generateRecipes`
(the file read resolves through an awaited promise, so API rejections
surface inside the `try`); the `catch` writes the image-analysis error
slot. -/
def initiateFullScanProcess : List Stmt :=
  [ Stmt.setErr .imageAnalysis none,
    Stmt.setErr .recipeGeneration none,
    Stmt.tryBlock [Stmt.apiCall "analyzeImage", Stmt.apiCall "generateRecipes"]
      .imageAnalysis
      (fun m => "Failed to process image and generate recipes: " ++ m ++ ".") ]

/-- Translation of `handleAnalyzeImage` (ImageUploader, with an image
selected): clear the error, then inside `try` assign `reader.onloadend`
— registering a callback whose body awaits `analyzeImage` — and return;
the `catch` would write the image-analysis error slot, but the callback
body runs after the handler task has finished. -/
def handleAnalyzeImage : List Stmt :=
  [ Stmt.setErr .imageAnalysis none,
    Stmt.tryBlock [Stmt.registerCallback [Stmt.apiCall "analyzeImage"]]
      .imageAnalysis (fun m => "Failed to analyze image: " ++ m ++ ".") ]

/-- Translation of the API part of `handleSendMessage` (ChatInterface,
non-blank input): clear the chat error, then inside `try` await the chat
API; the `catch` writes the chat error slot. -/
def handleSendMessageCall : List Stmt :=
  [ Stmt.setErr .chat none,
    Stmt.tryBlock [Stmt.apiCall "sendMessage"]
      .chat (fun m => "Failed to get response: " ++ m) ]

/-- An oracle failing exactly the named API call with the given
message. -/
def failOracle (nm msg : String) : String → Option String :=
  fun q => if q = nm then some msg else none

/-- C4 evaluation at the failing input: when `analyzeImage` rejects,
`initiateFullScanProcess` catches and stores its message, and
`handleSendMessageCall` catches a rejecting chat call — but
`handleAnalyzeImage` leaves `imageAnalysisError` unset and the rejection
escapes as an unhandled rejection, because the error is raised inside
the `reader.onloadend` callback after the try/catch of the handler
invocation has completed. -/
theorem C4_uncaught_analyze_error :
    (runHandler (failOracle "analyzeImage" "network error")
        initiateFullScanProcess).imageAnalysisError =
      some "Failed to process image and generate recipes: network error." ∧
    (runHandler (failOracle "analyzeImage" "network error")
        initiateFullScanProcess).uncaught = [] ∧
    (runHandler (failOracle "sendMessage" "boom")
        handleSendMessageCall).chatError =
      some "Failed to get response: boom" ∧
    (runHandler (failOracle "sendMessage" "boom")
        handleSendMessageCall).uncaught = [] ∧
    (runHandler (failOracle "analyzeImage" "network error")
        handleAnalyzeImage).imageAnalysisError = none ∧
    (runHandler (failOracle "analyzeImage" "network error")
        handleAnalyzeImage).uncaught = ["network error"] := by
  refine ⟨?_, ?_, ?_, ?_, ?_, ?_⟩ <;>
    simp [runHandler, execStmts, runPending, initiateFullScanProcess,
      handleAnalyzeImage, handleSendMessageCall, failOracle, setSlot,
      initUIErrState]

end FridgeToFork
